import Mathlib

/-!
Verification development for the SIPE HTTP transport layer
(`src/core/sipe-http-transport.c`).

The C source is embedded shallowly: the connection buffer is a `List Char`
of raw bytes (the C code scans it with C-string functions, so the model
assumes the byte stream contains no NUL bytes, as any real HTTP header
stream does), the connection pool (`GHashTable` keyed by "host:port") is an
association list of entries, and the timeout `GQueue` is a list of
(key, deadline) pairs sorted by deadline.  Machine integers are modelled as
`Nat`; the one place where C truncation is observable — the assignment of
the `gint64` result of `g_ascii_strtoll` to the `guint` chunk length — is
modelled with an explicit `% 2^32`.

Collaborators that live outside this file's sources (`sipmsg.c`,
`sipe-utils.c`) are modelled from the spec where noted.
-/

set_option autoImplicit false

namespace SipeHttp

/-- One byte of `connection->buffer`; the C code stores bytes in `gchar`. -/
abbrev Byte := Char

/-- ASCII lowercasing of a single byte, as done per character by
`g_ascii_strdown` / `g_ascii_tolower`: only `A`-`Z` are mapped. -/
def asciiLower (c : Byte) : Byte :=
  if 'A' ≤ c ∧ c ≤ 'Z' then Char.ofNat (c.toNat + 32) else c

/-- `g_ascii_strdown(s, -1)`: ASCII-lowercase every byte. -/
def lowerAscii (s : List Byte) : List Byte := s.map asciiLower

/-- Modelled from the spec: `sipe_strcase_equal` (sipe-utils.c, not under
src/) compares two strings ASCII-case-insensitively (`g_ascii_strcasecmp`). -/
def strcaseEq (a b : List Byte) : Bool := lowerAscii a = lowerAscii b

/-- Hex-digit test used by `g_ascii_strtoll(_, _, 16)` when scanning the
chunk-size line. -/
def isHexDigit (c : Byte) : Bool :=
  ('0' ≤ c ∧ c ≤ '9') ∨ ('a' ≤ c ∧ c ≤ 'f') ∨ ('A' ≤ c ∧ c ≤ 'F')

/-- Numeric value of a hex digit. -/
def hexDigitVal (c : Byte) : Nat :=
  if '0' ≤ c ∧ c ≤ '9' then c.toNat - '0'.toNat
  else if 'a' ≤ c ∧ c ≤ 'f' then c.toNat - 'a'.toNat + 10
  else if 'A' ≤ c ∧ c ≤ 'F' then c.toNat - 'A'.toNat + 10
  else 0

/-- Value of a hex-digit string. -/
def hexValOf (ds : List Byte) : Nat :=
  ds.foldl (fun a c => a * 16 + hexDigitVal c) 0

/-- `g_ascii_isspace`: the six ASCII whitespace bytes skipped by
`g_ascii_strtoll` before the number — space, `\t`, `\n`, vertical tab,
form feed and `\r`. -/
def g_ascii_isspace (c : Byte) : Bool :=
  c = ' ' ∨ c = '\t' ∨ c = '\n' ∨ c = '\x0b' ∨ c = '\x0c' ∨ c = '\r'

/-- `g_ascii_strtoll(start, &tmp, 16)`, glib's locale-independent
`strtoll`: skip leading ASCII whitespace, accept one optional sign, accept
an `0x`/`0X` prefix when a hex digit follows it, then consume the maximal
run of hex digits; the value is clamped to the `gint64` range
(`G_MAXINT64`/`G_MININT64` on overflow).  Returns (value, consumed) where
`consumed` is `tmp - start`, the distance to the end pointer — 0 exactly
when no digits were consumed, in which case `tmp == start` (no conversion
was performed) and the value is 0. -/
def strtollHex (l : List Byte) : Int × Nat :=
  let ws := (l.takeWhile g_ascii_isspace).length
  let rest1 := l.drop ws
  let neg : Bool := rest1.head? = some '-'
  let sgnLen : Nat :=
    if rest1.head? = some '-' ∨ rest1.head? = some '+' then 1 else 0
  let rest2 := rest1.drop sgnLen
  let pfxLen : Nat :=
    if rest2.head? = some '0' ∧ (rest2[1]? = some 'x' ∨ rest2[1]? = some 'X') ∧
        rest2[2]?.elim false isHexDigit = true then 2
    else 0
  let rest3 := rest2.drop pfxLen
  let digits := rest3.takeWhile isHexDigit
  if digits.length = 0 then (0, 0)
  else
    let v : Int :=
      if neg then -(hexValOf digits : Int) else (hexValOf digits : Int)
    (max (min v (2 ^ 63 - 1)) (-(2 ^ 63)),
     ws + sgnLen + pfxLen + digits.length)

/-- Decimal scanner for the modelled `Content-Length` header value. -/
def parseDecAux (acc : Nat) : List Byte → Nat
  | [] => acc
  | c :: rest =>
    if '0' ≤ c ∧ c ≤ '9' then parseDecAux (acc * 10 + (c.toNat - '0'.toNat)) rest
    else acc

/-- Decimal value of the leading digit run (`atoi`-like). -/
def decValOf (l : List Byte) : Nat := parseDecAux 0 l

/-- Lines 195-199: `while (*current == '\r' || *current == '\n') current++;`
followed by `sipe_utils_shrink_buffer` — drop leading CR/LF bytes. -/
def stripLeadingCRLF : List Byte → List Byte
  | [] => []
  | c :: rest =>
    if c = '\r' ∨ c = '\n' then stripLeadingCRLF rest else c :: rest

/-- `strstr(p, "\r\n")`: index of the first CRLF, if any. -/
def findCRLF : List Byte → Option Nat
  | '\r' :: '\n' :: _ => some 0
  | _ :: rest => (findCRLF rest).map (· + 1)
  | [] => none

/-- `strstr(buffer, "\r\n\r\n")`: index of the first blank-line terminator. -/
def findCRLF2 : List Byte → Option Nat
  | '\r' :: '\n' :: '\r' :: '\n' :: _ => some 0
  | _ :: rest => (findCRLF2 rest).map (· + 1)
  | [] => none

end SipeHttp

namespace SipeHttp

/-- Declared body length of a parsed header block: `SIPMSG_BODYLEN_CHUNKED`
or a fixed byte count (`Content-Length`, defaulting to 0). -/
inductive BodyLen where
  | chunked : BodyLen
  | fixed : Nat → BodyLen
deriving DecidableEq, Repr

/-- Parsed header structure (`struct sipmsg`), restricted to the fields the
transport code reads: the header list and the declared body length. -/
structure SipMsg where
  headers : List (List Byte × List Byte)
  bodylen : BodyLen
deriving DecidableEq, Repr

/-- Split a byte list at CRLF boundaries. -/
def splitCRLF : List Byte → List (List Byte)
  | '\r' :: '\n' :: rest => [] :: splitCRLF rest
  | c :: rest =>
    match splitCRLF rest with
    | l :: ls => (c :: l) :: ls
    | [] => [[c]]
  | [] => [[]]

/-- Split a header line at the first `:`, dropping spaces before the value. -/
def splitAtColon : List Byte → Option (List Byte × List Byte)
  | [] => none
  | ':' :: rest => some ([], rest.dropWhile (· = ' '))
  | c :: rest => (splitAtColon rest).map (fun nv => (c :: nv.1, nv.2))

/-- `sipmsg_find_header`: first header whose name matches
ASCII-case-insensitively, if any. -/
def findHeader (hs : List (List Byte × List Byte)) (name : List Byte) :
    Option (List Byte) :=
  match hs with
  | [] => none
  | (n, v) :: rest => if strcaseEq n name then some v else findHeader rest name

/-- Modelled from the spec: `sipmsg_parse_header` lives in `sipmsg.c`, which
is not among the sources here; the spec treats header parsing as a black-box
collaborator.  Per the spec it parses the header block into a header list,
fails (returns `none`) on a malformed start line — modelled as the block not
beginning with `HTTP/` — and sets the declared body length to the chunked
sentinel when `Transfer-Encoding: chunked` is present, else to the
`Content-Length` value, else to 0. -/
def sipmsg_parse_header (hdr : List Byte) : Option SipMsg :=
  match splitCRLF hdr with
  | [] => none
  | first :: rest =>
    if ['H', 'T', 'T', 'P', '/'].isPrefixOf first then
      let hs := rest.filterMap splitAtColon
      let bl :=
        match findHeader hs ("Transfer-Encoding".toList) with
        | some v => if strcaseEq v ("chunked".toList) then BodyLen.chunked
                    else match findHeader hs ("Content-Length".toList) with
                         | some w => BodyLen.fixed (decValOf w)
                         | none => BodyLen.fixed 0
        | none =>
          match findHeader hs ("Content-Length".toList) with
          | some w => BodyLen.fixed (decValOf w)
          | none => BodyLen.fixed 0
      some { headers := hs, bodylen := bl }
    else none

end SipeHttp

namespace SipeHttp

/-- A message as produced by the framer: parsed headers plus the assembled
body (`msg->body`) and its final length (`msg->bodylen`). -/
structure FramedMsg where
  headers : List (List Byte × List Byte)
  body : List Byte
  bodylen : Nat
deriving DecidableEq, Repr

/-- Outcome of one framing attempt on the accumulated buffer. -/
inductive FrameResult where
  /-- No blank-line terminator yet, or the body is not fully present:
  the function returns with the buffer restored for the next try. -/
  | incomplete : FrameResult
  /-- `sipmsg_parse_header` returned NULL (lines 208-212). -/
  | malformed : FrameResult
  /-- The chunk decoder advanced `start` past the end of the buffer
  (the `guint` wrap at line 243, see `chunkLoopF`): from that point the C
  code reads out of bounds, which is undefined behaviour, so neither the
  restore path nor a completed message is reached.  Recorded as its own
  outcome, distinct from the defined `incomplete` return. -/
  | overrun : FrameResult
  /-- A complete message was sliced out; `leftover` is the buffer tail kept
  by `sipe_utils_shrink_buffer`. -/
  | complete : FramedMsg → List Byte → FrameResult
deriving DecidableEq, Repr

/-- Outcome of the chunk-decoding loop of lines 221-282. -/
inductive ChunkOut where
  /-- The loop fell through with `incomplete == TRUE`: the caller restores
  the header byte and returns. -/
  | incomplete : ChunkOut
  /-- Line 243's `guint` check passed although the declared chunk extends
  past the buffer: `start = tmp + length + 2` leaves the buffer and the
  subsequent reads are undefined behaviour. -/
  | overrun : ChunkOut
  /-- The zero-size terminator chunk completed the body: accumulated
  payload slices, final `msg->bodylen`, and the leftover buffer tail. -/
  | done : List (List Byte) → Nat → List Byte → ChunkOut
deriving DecidableEq, Repr

/-- Chunk-decoding loop of lines 221-282, written with explicit fuel so that
it is structurally recursive (the accompanying lemma
`chunkLoopF_fuel_irrelevant` shows any sufficient fuel gives the same
result, so the fuel is not observable).  Arguments mirror the C locals:
`rest` is the bytes from `start` to the end of the buffer, `chunks` the
accumulated payload slices, `blen` the running `msg->bodylen`.  The
`guint length` local truncates the `gint64` returned by `g_ascii_strtoll`
(the explicit `% 2^32`), and line 243's completeness check
`remainder < length + 2` is computed in `guint`, so `length + 2` wraps at
`2^32`; when that wrapped check passes although the true chunk extent
exceeds the buffer, the C code walks out of the buffer — the `overrun`
outcome.  (The `remainder` local is also `guint`; its own truncation can
only matter for buffers of 4 GiB and more, which this model — like
every C-string scan in the function — assumes away.) -/
def chunkLoopF : Nat → List Byte → List (List Byte) → Nat → ChunkOut
  | 0, _, _, _ => .incomplete
  | f + 1, rest, chunks, blen =>
    if rest.length = 0 then .incomplete
      -- while (strlen(start) > 0) fell through
    else
      let pr := strtollHex rest
      let len := (pr.1 % (2 ^ 32 : Int)).toNat  -- guint length = (gint64 v)
      if pr.2 = 0 then .incomplete
        -- Illegal number: length == 0 && start == tmp
      else
        let blen' := blen + len
        let afterDigits := rest.drop pr.2
        match findCRLF afterDigits with
        | none => .incomplete       -- chunk header not finished yet
        | some i =>
          let tmp := afterDigits.drop (i + 2)
          if tmp.length < (len + 2) % 2 ^ 32 then .incomplete
            -- chunk not finished yet (line 243, guint arithmetic)
          else if tmp.length < len + 2 then .overrun
            -- the wrapped check passed but the chunk extends past the
            -- buffer: start leaves the buffer, reads become out of bounds
          else
            let nxt := tmp.drop (len + 2)     -- start = tmp + length + 2
            if len = 0 then .done chunks blen' nxt  -- body completed
            else chunkLoopF f nxt (chunks ++ [tmp.take len]) blen'

/-- Chunk-decoding loop with its canonical (provably sufficient) fuel. -/
def chunkLoop (rest : List Byte) : ChunkOut :=
  chunkLoopF (rest.length + 1) rest [] 0

end SipeHttp

namespace SipeHttp

/-- Framing part of `sipe_http_transport_input` (lines 201-324) run on a
buffer whose leading CR/LF bytes have already been stripped.  Returns the
outcome together with the buffer contents after the call: in the
`incomplete` and `malformed` cases the C code restores the terminator byte
it overwrote (`current[0] = '\r'`), so the buffer is returned unchanged; in
the `complete` case `sipe_utils_shrink_buffer` keeps only the tail. -/
def frameCore (buf : List Byte) : FrameResult × List Byte :=
  match findCRLF2 buf with
  | none => (.incomplete, buf)
  | some k =>
    -- current = buf + k; current += 2; current[0] = '\0';
    -- the parsed header C-string is buf[0 .. k+2)
    match sipmsg_parse_header (buf.take (k + 2)) with
    | none => (.malformed, buf)
    | some m =>
      match m.bodylen with
      | .chunked =>
        -- gchar *start = current + 2, i.e. offset k+4
        match chunkLoop (buf.drop (k + 4)) with
        | .incomplete => (.incomplete, buf)
        | .overrun => (.overrun, buf)
        | .done chunks blen rest2 =>
          (.complete { headers := m.headers, body := chunks.flatten,
                       bodylen := blen } rest2, rest2)
      | .fixed n =>
        let rest := buf.drop (k + 4)
        -- guint remainder = buffer_used - (current + 2 - buffer)
        if n ≤ rest.length then
          (.complete { headers := m.headers, body := rest.take n,
                       bodylen := n } (rest.drop n), rest.drop n)
        else (.incomplete, buf)

/-- Framing behaviour of `sipe_http_transport_input`: strip leading CR/LF
bytes (lines 195-199), then attempt to slice one complete message. -/
def transport_input_frame (buf : List Byte) : FrameResult × List Byte :=
  frameCore (stripLeadingCRLF buf)

end SipeHttp

namespace SipeHttp

/-- Observable calls the input handler makes on its collaborators, in
order: `sipe_http_request_response`, `sipe_backend_transport_disconnect`,
a reentrant `sipe_http_transport_new` (reconnect), and
`sipe_http_request_next`. -/
inductive HtEvent where
  | response : HtEvent
  | disconnect : HtEvent
  | reconnect : List Byte → Nat → HtEvent
  | requestNext : HtEvent
deriving DecidableEq, Repr

/-- Per-connection state visible to `sipe_http_transport_input`:
`conn_public->host/port`, the accumulated buffer, the backend socket handle
(`conn_private->connection != NULL`) and `conn_public->connected`. -/
structure Conn where
  host : List Byte
  port : Nat
  buffer : List Byte
  connection : Bool
  connected : Bool
deriving DecidableEq, Repr

/-- Line 329: `sipe_strcase_equal(sipmsg_find_header(msg, "Connection"), "close")`;
`sipe_strcase_equal` is false when the header is absent (NULL). -/
def connectionClose (m : FramedMsg) : Bool :=
  match findHeader m.headers ("Connection".toList) with
  | some v => strcaseEq v ("close".toList)
  | none => false

/-- Lines 326-349: after a complete message was sliced out, deliver the
response, query the request queue (`pending`), and either tear down the
socket on a server-requested close (reconnecting iff requests are pending)
or trigger the next request.  Returns the updated connection state and the
collaborator calls in order. -/
def handleComplete (c : Conn) (m : FramedMsg) (pending : Bool) :
    Conn × List HtEvent :=
  if connectionClose m then
    ({ c with connection := false, connected := false },
     .response :: .disconnect ::
       (if pending then [.reconnect c.host c.port] else []))
  else
    (c, .response :: (if pending then [.requestNext] else []))

/-- `sipe_http_transport_input` (lines 189-351) on one data-arrival event:
frame the buffer once; on a complete message run the lines 326-349 handler;
otherwise return with the buffer logically restored.  `pending` stands for
the external `sipe_http_request_pending` answer. -/
def sipe_http_transport_input (c : Conn) (pending : Bool) :
    Conn × List HtEvent :=
  match transport_input_frame c.buffer with
  | (.complete m leftover, _) =>
    handleComplete { c with buffer := leftover } m pending
  | (_, buf) => ({ c with buffer := buf }, [])

end SipeHttp

namespace SipeHttp

/-- `SIPE_HTTP_DEFAULT_TIMEOUT` (line 53). -/
def SIPE_HTTP_DEFAULT_TIMEOUT : Nat := 60

/-- Pooled connection record: the merged observable fields of
`struct sipe_http_connection_public` and `struct sipe_http_connection_private`
for one destination. -/
structure Entry where
  host_port : List Byte
  connection : Bool
  connected : Bool
  timeout : Nat
deriving DecidableEq, Repr

/-- `struct sipe_http`: the destination-to-entry mapping (`GHashTable`,
keyed by `host_port`), the timeout `GQueue` modelled as (key, deadline)
pairs, and `next_timeout` (0 when the timer is idle). -/
structure HttpState where
  connections : List Entry
  timeouts : List (List Byte × Nat)
  next_timeout : Nat
deriving DecidableEq, Repr

/-- State created by `sipe_http_init`. -/
def sipe_http_init_state : HttpState :=
  { connections := [], timeouts := [], next_timeout := 0 }

/-- `g_hash_table_lookup(http->connections, host_port)`. -/
def lookupConn (l : List Entry) (k : List Byte) : Option Entry :=
  l.find? (fun e => e.host_port = k)

/-- `g_queue_insert_sorted(q, x, timeout_compare)`: `g_list_insert_sorted`
places the new element before the first element it does not compare
greater than. -/
def insertSorted (x : List Byte × Nat) : List (List Byte × Nat) →
    List (List Byte × Nat)
  | [] => [x]
  | y :: rest => if y.2 < x.2 then y :: insertSorted x rest else x :: y :: rest

/-- `sipe_http_transport_drop` (lines 94-105): `g_hash_table_remove` on the
key, whose value-destroy hook `sipe_http_transport_free` (lines 75-92)
disconnects the backend socket if still live and removes the entry from the
timeout queue.  Also reached from `sipe_http_transport_error`. -/
def transport_drop (st : HttpState) (k : List Byte) : HttpState :=
  { st with
    connections := st.connections.eraseP (fun e => e.host_port = k)
    timeouts := st.timeouts.eraseP (fun x => x.1 = k) }

/-- `start_timer` (lines 138-151): arm the named timer for the queue head's
deadline and record it in `next_timeout`.  (The C code dereferences the
head unconditionally; it is only called with a non-empty queue.) -/
def start_timer (st : HttpState) : HttpState :=
  match st.timeouts.head? with
  | some hd => { st with next_timeout := hd.2 }
  | none => st

/-- Eviction loop of `sipe_http_transport_timeout` (lines 119-135), with
explicit fuel (see `timeoutLoopF_fuel_irrelevant`): drop the current
victim, then keep dropping the queue head while its deadline has passed;
re-arm the timer when a head with a future deadline remains. -/
def timeoutLoopF : Nat → HttpState → List Byte → Nat → HttpState
  | 0, st, _, _ => st
  | f + 1, st, victim, now =>
    let st1 := transport_drop st victim
    match st1.timeouts.head? with
    | none => st1
    | some hd =>
      if now < hd.2 then start_timer st1
      else timeoutLoopF f st1 hd.1 now

/-- `sipe_http_transport_timeout` (lines 109-136): the timer has fired for
`victim` (the entry it was armed with) at wall-clock `now`; clear
`next_timeout`, then run the eviction loop. -/
def sipe_http_transport_timeout (st : HttpState) (victim : List Byte)
    (now : Nat) : HttpState :=
  timeoutLoopF (st.timeouts.length + 1) { st with next_timeout := 0 } victim now

/-- The `host:port` key of lines 371-372: `g_ascii_strdown` on the host,
then `g_strdup_printf("%s:%u")`. -/
def hostPortKey (host : List Byte) (port : Nat) : List Byte :=
  lowerAscii host ++ ':' :: (Nat.repr port).toList

/-- The in-place mutation of lines 417-420 applied to the entry with key
`k`: `connected = FALSE`, a fresh live backend socket, deadline stamped. -/
def entryUpd (k : List Byte) (d : Nat) (x : Entry) : Entry :=
  if x.host_port = k then
    { x with connected := false, connection := true, timeout := d }
  else x

/-- Re-establishment block of lines 405-430, entered when the entry has no
live backend connection: reset `connected`, obtain a fresh backend socket,
stamp the idle deadline, insert into the sorted timeout queue, and start
the timer if it is not already running. -/
def reestablish (st : HttpState) (k : List Byte) (now : Nat) : HttpState :=
  let deadline := now + SIPE_HTTP_DEFAULT_TIMEOUT
  let st1 : HttpState :=
    { st with
      connections := st.connections.map (entryUpd k deadline)
      timeouts := insertSorted (k, deadline) st.timeouts }
  if st1.next_timeout = 0 then start_timer st1 else st1

/-- `sipe_http_transport_new` (lines 363-435): normalize the destination,
reuse a live pooled entry, or (re-)establish the connection — removing a
dead entry's stale queue position first, or registering a brand-new entry.
Returns the new state and the key identifying the returned
`sipe_http_connection_public` handle. -/
def sipe_http_transport_new (st : HttpState) (host_in : List Byte)
    (port : Nat) (now : Nat) : HttpState × List Byte :=
  let k := hostPortKey host_in port
  match lookupConn st.connections k with
  | some e =>
    if e.connection then (st, k)
    else
      (reestablish
        { st with timeouts := st.timeouts.eraseP (fun x => x.1 = k) } k now, k)
  | none =>
    let e0 : Entry :=
      { host_port := k, connection := false, connected := false, timeout := 0 }
    (reestablish { st with connections := st.connections ++ [e0] } k now, k)

/-- Lines 330-336 of `sipe_http_transport_input` applied to the pooled
entry for key `k`: on a server-requested `Connection: close` the backend
socket is disconnected (`conn_private->connection = NULL` after
`sipe_backend_transport_disconnect`) and `connected` cleared, but the
entry stays in the pool mapping and the timeout queue, and the timer
state is untouched. -/
def transport_server_close (st : HttpState) (k : List Byte) : HttpState :=
  { st with
    connections := st.connections.map (fun e =>
      if e.host_port = k then { e with connection := false, connected := false }
      else e) }

/-- `struct sipe_core_private`, restricted to its `http` field;
`sipe_private->http == NULL` is `none`. -/
structure CorePrivate where
  http : Option HttpState
deriving DecidableEq, Repr

/-- `sipe_http_free` (lines 153-164): a no-op when the transport was never
initialized, otherwise cancel the timer, destroy all entries and reset the
field to NULL. -/
def sipe_http_free (p : CorePrivate) : CorePrivate :=
  match p.http with
  | none => p
  | some _ => { p with http := none }

end SipeHttp

namespace SipeHttp

lemma stripLeadingCRLF_strip_append (a b : List Byte) :
    stripLeadingCRLF (stripLeadingCRLF a ++ b) = stripLeadingCRLF (a ++ b) := by
  induction a with
  | nil => rfl
  | cons c rest ih =>
    by_cases hc : c = '\r' ∨ c = '\n'
    · simp only [stripLeadingCRLF, if_pos hc, List.cons_append]
      rw [ih]; rfl
    · simp only [stripLeadingCRLF, if_neg hc, List.cons_append]
      rfl

lemma frameCore_not_complete_snd (b : List Byte)
    (h : (frameCore b).1 = .incomplete ∨ (frameCore b).1 = .malformed) :
    (frameCore b).2 = b := by
  cases hf : findCRLF2 b with
  | none => simp [frameCore, hf]
  | some k =>
    cases hp : sipmsg_parse_header (b.take (k + 2)) with
    | none => simp [frameCore, hf, hp]
    | some m =>
      cases hb : m.bodylen with
      | chunked =>
        cases hc : chunkLoop (b.drop (k + 4)) with
        | incomplete => simp [frameCore, hf, hp, hb, hc]
        | overrun => simp [frameCore, hf, hp, hb, hc]
        | done chunks blen rest2 => simp [frameCore, hf, hp, hb, hc] at h
      | fixed n =>
        by_cases hn : n ≤ b.length - (k + 4)
        · simp [frameCore, hf, hp, hb, hn] at h
        · simp [frameCore, hf, hp, hb, hn]

/-- C4: whenever the framer reports `Incomplete` or a failed header parse,
the accumulated buffer is left logically unchanged (the terminator byte the
C code overwrote at lines 206/210/296/321 is restored; only the
RFC-mandated leading CR/LF strip of lines 195-199 has been applied), and
rerunning the framer on that buffer extended with any further bytes gives
the same outcome as if the failed attempt had never happened. -/
theorem c4_failed_parse_restores_buffer (buf : List Byte)
    (h : (transport_input_frame buf).1 = .incomplete ∨
         (transport_input_frame buf).1 = .malformed) :
    (transport_input_frame buf).2 = stripLeadingCRLF buf ∧
    ∀ ext, transport_input_frame ((transport_input_frame buf).2 ++ ext) =
           transport_input_frame (buf ++ ext) := by
  have h2 : (transport_input_frame buf).2 = stripLeadingCRLF buf :=
    frameCore_not_complete_snd (stripLeadingCRLF buf) h
  refine ⟨h2, fun ext => ?_⟩
  rw [h2]
  show frameCore (stripLeadingCRLF (stripLeadingCRLF buf ++ ext)) =
       frameCore (stripLeadingCRLF (buf ++ ext))
  rw [stripLeadingCRLF_strip_append]

/-- C4 witness: a partial header (`"HTTP/1.1 200 OK\r\n"`, no blank line
yet) is `Incomplete`; the buffer is preserved and extending it with the
missing `"\r\n"` reparses as if the first attempt never happened. -/
theorem c4_failed_parse_restores_buffer_witness :
    (transport_input_frame ("HTTP/1.1 200 OK\r\n".toList)).2 =
      stripLeadingCRLF ("HTTP/1.1 200 OK\r\n".toList) ∧
    transport_input_frame
        ((transport_input_frame ("HTTP/1.1 200 OK\r\n".toList)).2 ++
          "\r\n".toList) =
      transport_input_frame ("HTTP/1.1 200 OK\r\n".toList ++ "\r\n".toList) := by
  have h := c4_failed_parse_restores_buffer ("HTTP/1.1 200 OK\r\n".toList)
    (Or.inl (by decide))
  exact ⟨h.1, h.2 ("\r\n".toList)⟩

/-- C10: `sipe_http_free` is idempotent and total: on an uninitialized
transport (`http == NULL`) it is a no-op, after any call the field is NULL,
and calling it twice equals calling it once. -/
theorem c10_free_idempotent :
    ∀ p : CorePrivate,
      sipe_http_free (sipe_http_free p) = sipe_http_free p ∧
      (sipe_http_free p).http = none ∧
      sipe_http_free { http := none } = { http := none } := by
  intro p
  cases hp : p.http with
  | none =>
    refine ⟨?_, ?_, rfl⟩ <;> simp [sipe_http_free, hp]
  | some st =>
    refine ⟨?_, ?_, rfl⟩ <;> simp [sipe_http_free, hp]

end SipeHttp

namespace SipeHttp

/-- C6: for a complete response carrying `Connection: close` (matched
ASCII-case-insensitively), the handler disconnects the backend socket,
nulls the entry's socket handle and clears its connected flag before any
further event, and re-invokes `sipe_http_transport_new` for the same
destination exactly when another request is pending; without a close
directive it instead triggers the next pending request on the same
connection. -/
theorem c6_connection_close (c : Conn) (pending : Bool) (m : FramedMsg)
    (leftover : List Byte)
    (hframe : transport_input_frame c.buffer = (.complete m leftover, leftover)) :
    (connectionClose m = true →
      (sipe_http_transport_input c pending).1.connection = false ∧
      (sipe_http_transport_input c pending).1.connected = false ∧
      (sipe_http_transport_input c pending).2 =
        .response :: .disconnect ::
          (if pending then [.reconnect c.host c.port] else []) ∧
      (HtEvent.reconnect c.host c.port ∈ (sipe_http_transport_input c pending).2 ↔
        pending = true)) ∧
    (connectionClose m = false →
      (sipe_http_transport_input c pending).1 = { c with buffer := leftover } ∧
      (sipe_http_transport_input c pending).2 =
        .response :: (if pending then [.requestNext] else []) ∧
      (HtEvent.requestNext ∈ (sipe_http_transport_input c pending).2 ↔
        pending = true)) := by
  constructor
  · intro hclose
    simp only [sipe_http_transport_input, hframe, handleComplete, hclose,
      if_true]
    cases pending <;> simp
  · intro hclose
    simp only [sipe_http_transport_input, hframe, handleComplete, hclose,
      Bool.false_eq_true, if_false]
    cases pending <;> simp

/-- C6 witness: a complete response with header `Connection: CLOSE`
(case-insensitive match) and a pending request: socket handle nulled,
connected flag cleared, disconnect issued, reconnect triggered. -/
theorem c6_connection_close_witness :
    ((sipe_http_transport_input
        { host := "h".toList, port := 80,
          buffer := "HTTP/1.1 200 OK\r\nConnection: CLOSE\r\nContent-Length: 0\r\n\r\n".toList,
          connection := true, connected := true } true).1.connection = false ∧
     (sipe_http_transport_input
        { host := "h".toList, port := 80,
          buffer := "HTTP/1.1 200 OK\r\nConnection: CLOSE\r\nContent-Length: 0\r\n\r\n".toList,
          connection := true, connected := true } true).1.connected = false ∧
     (sipe_http_transport_input
        { host := "h".toList, port := 80,
          buffer := "HTTP/1.1 200 OK\r\nConnection: CLOSE\r\nContent-Length: 0\r\n\r\n".toList,
          connection := true, connected := true } true).2 =
        .response :: .disconnect ::
          (if true then [.reconnect ("h".toList) 80] else []) ∧
     (HtEvent.reconnect ("h".toList) 80 ∈
        (sipe_http_transport_input
          { host := "h".toList, port := 80,
            buffer := "HTTP/1.1 200 OK\r\nConnection: CLOSE\r\nContent-Length: 0\r\n\r\n".toList,
            connection := true, connected := true } true).2 ↔ true = true)) :=
  (c6_connection_close
    { host := "h".toList, port := 80,
      buffer := "HTTP/1.1 200 OK\r\nConnection: CLOSE\r\nContent-Length: 0\r\n\r\n".toList,
      connection := true, connected := true } true
    { headers := [("Connection".toList, "CLOSE".toList),
                  ("Content-Length".toList, "0".toList)],
      body := [], bodylen := 0 } []
    (by decide)).1 (by decide)

end SipeHttp

namespace SipeHttp

/-- C5 counterexample: a single data-arrival event whose buffer holds one
complete fixed-length-body message immediately followed by a second
complete message.  `sipe_http_transport_input` contains no framing loop
(lines 189-351 process at most one message per invocation), so the event
dispatches exactly one response — not the two the claim requires — while
the leftover buffer is the tail starting at the second message. -/
theorem c5_counterexample :
    ((sipe_http_transport_input
        { host := "h".toList, port := 80,
          buffer := ("HTTP/1.1 200 OK\r\nContent-Length: 3\r\n\r\nabc" ++
                     "HTTP/1.1 200 OK\r\n\r\n").toList,
          connection := true, connected := true } false).2.count
        HtEvent.response = 1) ∧
    ¬ ((sipe_http_transport_input
        { host := "h".toList, port := 80,
          buffer := ("HTTP/1.1 200 OK\r\nContent-Length: 3\r\n\r\nabc" ++
                     "HTTP/1.1 200 OK\r\n\r\n").toList,
          connection := true, connected := true } false).2.count
        HtEvent.response = 2) := by
  constructor
  · decide
  · decide

/-- C5 amended: each data-arrival event invokes the framer once and
dispatches at most one response; on a buffer holding two complete messages
the first event delivers the first response with the leftover buffer equal
to the tail starting at the second message, and the next event on that
state delivers the second — the two Complete dispatches are sequential
across invocations, not within one. -/
theorem c5_one_message_per_event :
    (∀ (c : Conn) (pending : Bool),
      (sipe_http_transport_input c pending).2.count HtEvent.response ≤ 1) ∧
    ((sipe_http_transport_input
        { host := "h".toList, port := 80,
          buffer := ("HTTP/1.1 200 OK\r\nContent-Length: 3\r\n\r\nabc" ++
                     "HTTP/1.1 200 OK\r\n\r\n").toList,
          connection := true, connected := true } false).2.count
        HtEvent.response = 1 ∧
     (sipe_http_transport_input
        { host := "h".toList, port := 80,
          buffer := ("HTTP/1.1 200 OK\r\nContent-Length: 3\r\n\r\nabc" ++
                     "HTTP/1.1 200 OK\r\n\r\n").toList,
          connection := true, connected := true } false).1.buffer =
        "HTTP/1.1 200 OK\r\n\r\n".toList ∧
     (sipe_http_transport_input
        (sipe_http_transport_input
          { host := "h".toList, port := 80,
            buffer := ("HTTP/1.1 200 OK\r\nContent-Length: 3\r\n\r\nabc" ++
                       "HTTP/1.1 200 OK\r\n\r\n").toList,
            connection := true, connected := true } false).1 false).2.count
        HtEvent.response = 1 ∧
     (sipe_http_transport_input
        (sipe_http_transport_input
          { host := "h".toList, port := 80,
            buffer := ("HTTP/1.1 200 OK\r\nContent-Length: 3\r\n\r\nabc" ++
                       "HTTP/1.1 200 OK\r\n\r\n").toList,
            connection := true, connected := true } false).1 false).1.buffer =
        []) := by
  constructor
  · intro c pending
    unfold sipe_http_transport_input
    cases hf : transport_input_frame c.buffer with
    | mk r buf =>
      cases r with
      | incomplete => simp
      | malformed => simp
      | overrun => simp
      | complete m leftover =>
        simp only [handleComplete]
        by_cases hclose : connectionClose m = true
        · simp only [hclose, if_true]
          cases pending <;> simp [List.count_cons]
        · simp only [Bool.not_eq_true] at hclose
          simp only [hclose, Bool.false_eq_true, if_false]
          cases pending <;> simp [List.count_cons]
  · refine ⟨by decide, by decide, by decide, by decide⟩

end SipeHttp

namespace SipeHttp

/-- RFC 7230 chunk encoding of a list of (size-line digits, payload) pairs,
without the terminating zero-size chunk: each chunk is its hex size line,
CRLF, the payload, CRLF. -/
def encodeChunksOnly : List (List Byte × List Byte) → List Byte
  | [] => []
  | (d, p) :: rest => d ++ '\r' :: '\n' :: (p ++ '\r' :: '\n' :: encodeChunksOnly rest)

/-- Well-formedness of one encoded chunk: a non-empty hex-digit size line
whose value is the payload length, a non-empty payload (zero-size chunks
are the body terminator), and a size below the `guint` range. -/
def goodChunk (d p : List Byte) : Prop :=
  d ≠ [] ∧ (∀ c ∈ d, isHexDigit c = true) ∧ hexValOf d = p.length ∧
  p ≠ [] ∧ p.length < 2 ^ 32

lemma isHexDigit_not_space (c : Byte) (h : isHexDigit c = true) :
    g_ascii_isspace c = false := by
  by_contra hsp
  rw [Bool.not_eq_false] at hsp
  have hP := of_decide_eq_true hsp
  rcases hP with rfl | rfl | rfl | rfl | rfl | rfl <;> exact absurd h (by decide)

lemma ne_of_isHexDigit (c d : Byte) (h : isHexDigit c = true)
    (hd : isHexDigit d = false) : c ≠ d := by
  intro he
  rw [he, hd] at h
  cases h

lemma takeWhile_hex_append (d : List Byte) (c : Byte) (rest : List Byte)
    (hall : ∀ x ∈ d, isHexDigit x = true) (hc : isHexDigit c = false) :
    (d ++ c :: rest).takeWhile isHexDigit = d := by
  induction d with
  | nil => simpa using List.takeWhile_cons_of_neg (l := rest) (by simpa using hc)
  | cons a t ih =>
    have ha : isHexDigit a = true := hall a (List.mem_cons_self a t)
    rw [List.cons_append, List.takeWhile_cons_of_pos ha,
      ih (fun x hx => hall x (List.mem_cons_of_mem a hx))]

lemma strtollHex_digits (d rest : List Byte) (hne : d ≠ [])
    (hhex : ∀ c ∈ d, isHexDigit c = true) (hlt : hexValOf d < 2 ^ 63) :
    strtollHex (d ++ '\r' :: rest) = ((hexValOf d : Int), d.length) := by
  obtain ⟨d0, d', rfl⟩ : ∃ d0 d', d = d0 :: d' := by
    cases d with
    | nil => exact absurd rfl hne
    | cons a t => exact ⟨a, t, rfl⟩
  have h0 : isHexDigit d0 = true := hhex d0 (List.mem_cons_self d0 d')
  have hminus : d0 ≠ '-' := ne_of_isHexDigit d0 '-' h0 (by decide)
  have hplus : d0 ≠ '+' := ne_of_isHexDigit d0 '+' h0 (by decide)
  have hws : List.takeWhile g_ascii_isspace (d0 :: (d' ++ '\r' :: rest)) = [] :=
    List.takeWhile_cons_of_neg (by simp [isHexDigit_not_space d0 h0])
  have hdig : List.takeWhile isHexDigit (d0 :: (d' ++ '\r' :: rest)) = d0 :: d' := by
    have h := takeWhile_hex_append (d0 :: d') '\r' rest hhex (by decide)
    rwa [List.cons_append] at h
  have hsgn : ¬ ((some d0 = some '-') ∨ (some d0 = some '+')) := by
    rintro (h | h)
    · exact hminus (Option.some.inj h)
    · exact hplus (Option.some.inj h)
  have hsnd : ¬ ((d0 :: (d' ++ '\r' :: rest))[1]? = some 'x' ∨
      (d0 :: (d' ++ '\r' :: rest))[1]? = some 'X') := by
    cases d' with
    | nil => simp
    | cons d1 t =>
      have h1 : isHexDigit d1 = true := hhex d1 (by simp)
      have hx : d1 ≠ 'x' := ne_of_isHexDigit d1 'x' h1 (by decide)
      have hX : d1 ≠ 'X' := ne_of_isHexDigit d1 'X' h1 (by decide)
      simp [hx, hX]
  have hpfx : ¬ (some d0 = some '0' ∧
      ((d0 :: (d' ++ '\r' :: rest))[1]? = some 'x' ∨
        (d0 :: (d' ++ '\r' :: rest))[1]? = some 'X') ∧
      (d0 :: (d' ++ '\r' :: rest))[2]?.elim false isHexDigit = true) :=
    fun h => hsnd h.2.1
  have hnegf : ¬ ((decide (some d0 = some '-')) = true) := by simp [hminus]
  have hv0 : (0 : Int) ≤ (hexValOf (d0 :: d') : Int) := Int.natCast_nonneg _
  have hvlt : (hexValOf (d0 :: d') : Int) ≤ 2 ^ 63 - 1 := by
    have h : (hexValOf (d0 :: d') : Int) < 2 ^ 63 := by exact_mod_cast hlt
    omega
  simp only [strtollHex, List.cons_append, hws, List.length_nil, List.drop_zero,
    List.head?_cons]
  rw [if_neg hsgn]
  simp only [List.drop_zero, List.head?_cons]
  rw [if_neg hpfx]
  simp only [List.drop_zero, hdig, List.length_cons]
  rw [if_neg (Nat.succ_ne_zero d'.length), if_neg hnegf,
    min_eq_left hvlt, max_eq_left (by omega)]
  simp

end SipeHttp

namespace SipeHttp

lemma chunkLoopF_step (f : Nat) (d p rest : List Byte)
    (chunks : List (List Byte)) (blen : Nat) (hg : goodChunk d p) :
    chunkLoopF (f + 1) (d ++ '\r' :: '\n' :: (p ++ '\r' :: '\n' :: rest))
        chunks blen =
    chunkLoopF f rest (chunks ++ [p]) (blen + p.length) := by
  obtain ⟨hd, hhex, hval, hp, hlt⟩ := hg
  have hd0 : ¬ d.length = 0 := by
    simpa [List.length_eq_zero] using hd
  have hp0 : ¬ p.length = 0 := by
    simpa [List.length_eq_zero] using hp
  have hbuf : ¬ (d ++ '\r' :: '\n' :: (p ++ '\r' :: '\n' :: rest)).length = 0 := by
    simp [List.length_append]
  have hvlt : hexValOf d < 2 ^ 63 := by
    rw [hval]
    calc p.length < 2 ^ 32 := hlt
      _ < 2 ^ 63 := by norm_num
  have hpr : strtollHex (d ++ '\r' :: '\n' :: (p ++ '\r' :: '\n' :: rest)) =
      ((hexValOf d : Int), d.length) :=
    strtollHex_digits d _ hd hhex hvlt
  have hlen : (((hexValOf d : Nat) : Int) % 2 ^ 32).toNat = p.length := by
    rw [hval, Int.emod_eq_of_lt (Int.natCast_nonneg _) (by exact_mod_cast hlt)]
    simp
  have hdrop : (d ++ '\r' :: '\n' :: (p ++ '\r' :: '\n' :: rest)).drop d.length =
      '\r' :: '\n' :: (p ++ '\r' :: '\n' :: rest) := List.drop_left d _
  have hguard1 : ¬ ((p ++ '\r' :: '\n' :: rest).length < (p.length + 2) % 2 ^ 32) := by
    have hm : (p.length + 2) % 2 ^ 32 ≤ p.length + 2 := Nat.mod_le _ _
    simp only [List.length_append, List.length_cons]
    omega
  have htmplen : ¬ (p ++ '\r' :: '\n' :: rest).length < p.length + 2 := by
    simp [List.length_append]
  have htake : (p ++ '\r' :: '\n' :: rest).take p.length = p := by
    simp
  have hdrop2 : (p ++ '\r' :: '\n' :: rest).drop (p.length + 2) = rest := by
    rw [show p ++ '\r' :: '\n' :: rest = (p ++ ['\r', '\n']) ++ rest by simp]
    simp
  simp only [chunkLoopF, if_neg hbuf, hpr, if_neg hd0, hlen, hdrop, findCRLF,
    Nat.zero_add, List.drop_succ_cons, List.drop_zero, if_neg hguard1,
    if_neg htmplen, if_neg hp0, htake, hdrop2]

end SipeHttp

namespace SipeHttp

lemma chunkLoopF_terminator (f : Nat) (tail : List Byte)
    (chunks : List (List Byte)) (blen : Nat) :
    chunkLoopF (f + 1) ('0' :: '\r' :: '\n' :: '\r' :: '\n' :: tail)
        chunks blen = .done chunks blen tail := by
  have hpr : strtollHex ('0' :: '\r' :: '\n' :: '\r' :: '\n' :: tail) =
      ((0 : Int), 1) := by
    simpa using strtollHex_digits ['0'] ('\n' :: '\r' :: '\n' :: tail)
      (by simp) (by decide) (by decide)
  have hm2 : (2 : Nat) % 2 ^ 32 = 2 := by norm_num
  have h2 : ¬ (tail.length + 1 + 1 < 2) := by omega
  simp [chunkLoopF, hpr, findCRLF, hm2, h2]

lemma chunkLoopF_peel (l : List (List Byte × List Byte)) :
    ∀ (fuel : Nat) (rest : List Byte) (chunks : List (List Byte)) (blen : Nat),
      (∀ dp ∈ l, goodChunk dp.1 dp.2) → l.length < fuel →
      chunkLoopF fuel (encodeChunksOnly l ++ rest) chunks blen =
        chunkLoopF (fuel - l.length) rest (chunks ++ l.map (fun dp => dp.2))
          (blen + (l.map (fun dp => dp.2.length)).sum) := by
  induction l with
  | nil => intro fuel rest chunks blen _ _; simp [encodeChunksOnly]
  | cons dp l ih =>
    intro fuel rest chunks blen hwf hfuel
    obtain ⟨d, p⟩ := dp
    obtain ⟨f, rfl⟩ : ∃ f, fuel = f + 1 :=
      ⟨fuel - 1, by omega⟩
    have hg : goodChunk d p := hwf (d, p) (List.mem_cons_self _ _)
    have hwf' : ∀ dp ∈ l, goodChunk dp.1 dp.2 :=
      fun x hx => hwf x (List.mem_cons_of_mem _ hx)
    have hstep := chunkLoopF_step f d p (encodeChunksOnly l ++ rest) chunks blen hg
    have hassoc : encodeChunksOnly ((d, p) :: l) ++ rest =
        d ++ '\r' :: '\n' :: (p ++ '\r' :: '\n' :: (encodeChunksOnly l ++ rest)) := by
      simp [encodeChunksOnly]
    have hfl : f + 1 - (l.length + 1) = f - l.length := by omega
    rw [hassoc, hstep, ih f rest (chunks ++ [p]) (blen + p.length) hwf' (by
      simp only [List.length_cons] at hfuel; omega)]
    simp [hfl, Nat.add_assoc]

end SipeHttp

namespace SipeHttp

lemma chunkLoopF_fuel_irrelevant :
    ∀ (n f1 f2 : Nat) (rest : List Byte) (chunks : List (List Byte)) (blen : Nat),
      rest.length ≤ n → rest.length < f1 → rest.length < f2 →
      chunkLoopF f1 rest chunks blen = chunkLoopF f2 rest chunks blen := by
  intro n
  induction n with
  | zero =>
    intro f1 f2 rest chunks blen hn h1 h2
    obtain ⟨g1, rfl⟩ : ∃ g, f1 = g + 1 := ⟨f1 - 1, by omega⟩
    obtain ⟨g2, rfl⟩ : ∃ g, f2 = g + 1 := ⟨f2 - 1, by omega⟩
    have h0 : rest.length = 0 := by omega
    simp [chunkLoopF, h0]
  | succ n ih =>
    intro f1 f2 rest chunks blen hn h1 h2
    obtain ⟨g1, rfl⟩ : ∃ g, f1 = g + 1 := ⟨f1 - 1, by omega⟩
    obtain ⟨g2, rfl⟩ : ∃ g, f2 = g + 1 := ⟨f2 - 1, by omega⟩
    by_cases h0 : rest.length = 0
    · simp [chunkLoopF, h0]
    · simp only [chunkLoopF, if_neg h0]
      by_cases hcnt : (strtollHex rest).2 = 0
      · simp [hcnt]
      · simp only [if_neg hcnt]
        cases hf : findCRLF (rest.drop (strtollHex rest).2) with
        | none => simp
        | some i =>
          simp only
          split
          · rfl
          · split
            · rfl
            · split
              · rfl
              · apply ih <;>
                  · simp only [List.length_drop]
                    omega

end SipeHttp

namespace SipeHttp

lemma encodeChunksOnly_length_ge (l : List (List Byte × List Byte)) :
    l.length ≤ (encodeChunksOnly l).length := by
  induction l with
  | nil => simp [encodeChunksOnly]
  | cons dp rest ih =>
    obtain ⟨d, p⟩ := dp
    simp only [encodeChunksOnly, List.length_cons, List.length_append]
    simp at ih ⊢
    omega

lemma chunkLoop_encoded (l : List (List Byte × List Byte)) (tail : List Byte)
    (hwf : ∀ dp ∈ l, goodChunk dp.1 dp.2) :
    chunkLoop (encodeChunksOnly l ++
        ('0' :: '\r' :: '\n' :: '\r' :: '\n' :: tail)) =
      .done (l.map (fun dp => dp.2)) ((l.map (fun dp => dp.2.length)).sum) tail := by
  unfold chunkLoop
  have hge : l.length ≤ (encodeChunksOnly l).length := encodeChunksOnly_length_ge l
  have hfl : l.length <
      (encodeChunksOnly l ++
        ('0' :: '\r' :: '\n' :: '\r' :: '\n' :: tail)).length + 1 := by
    simp only [List.length_append]
    omega
  rw [chunkLoopF_peel l _ _ [] 0 hwf hfl]
  obtain ⟨f, hf⟩ : ∃ f,
      (encodeChunksOnly l ++
        ('0' :: '\r' :: '\n' :: '\r' :: '\n' :: tail)).length + 1 - l.length =
        f + 1 :=
    ⟨(encodeChunksOnly l ++
        ('0' :: '\r' :: '\n' :: '\r' :: '\n' :: tail)).length - l.length,
      by simp only [List.length_append]; omega⟩
  rw [hf, chunkLoopF_terminator]
  simp

/-- C2: a buffer holding a complete header block that declares chunked
transfer-encoding followed by a complete chunked body frames as `Complete`
with the body equal to the in-order concatenation of the chunk payloads
and the body length equal to their cumulative length; the consumed prefix
runs through the zero-size terminator chunk's trailing CRLF, leaving
exactly the bytes after it in the buffer.  Concretely, the chunked body
`"5\r\nhello\r\n0\r\n\r\n"` after the headers reconstructs body `"hello"`,
and prefixes of those bytes (a split mid-chunk, or the terminator chunk
missing its trailing CRLF) frame as `Incomplete` with the buffer kept. -/
theorem c2_chunked_body_reassembly :
    (∀ (buf : List Byte) (k : Nat) (m : SipMsg)
        (l : List (List Byte × List Byte)) (tail : List Byte),
      stripLeadingCRLF buf = buf →
      findCRLF2 buf = some k →
      sipmsg_parse_header (buf.take (k + 2)) = some m →
      m.bodylen = .chunked →
      buf.drop (k + 4) =
        encodeChunksOnly l ++ ('0' :: '\r' :: '\n' :: '\r' :: '\n' :: tail) →
      (∀ dp ∈ l, goodChunk dp.1 dp.2) →
      transport_input_frame buf =
        (.complete
          { headers := m.headers,
            body := (l.map (fun dp => dp.2)).flatten,
            bodylen := (l.map (fun dp => dp.2.length)).sum } tail, tail)) ∧
    transport_input_frame
        ("HTTP/1.1 200 OK\r\nTransfer-Encoding: chunked\r\n\r\n5\r\nhel".toList) =
      (.incomplete,
       "HTTP/1.1 200 OK\r\nTransfer-Encoding: chunked\r\n\r\n5\r\nhel".toList) ∧
    transport_input_frame
        ("HTTP/1.1 200 OK\r\nTransfer-Encoding: chunked\r\n\r\n5\r\nhello\r\n0\r\n".toList) =
      (.incomplete,
       "HTTP/1.1 200 OK\r\nTransfer-Encoding: chunked\r\n\r\n5\r\nhello\r\n0\r\n".toList) ∧
    transport_input_frame
        ("HTTP/1.1 200 OK\r\nTransfer-Encoding: chunked\r\n\r\n5\r\nhello\r\n0\r\n\r\n".toList) =
      (.complete
        { headers := [("Transfer-Encoding".toList, "chunked".toList)],
          body := "hello".toList, bodylen := 5 } [], []) := by
  refine ⟨?_, by decide, by decide, by decide⟩
  intro buf k m l tail hstrip hk hm hch hbody hwf
  have hcl : chunkLoop (buf.drop (k + 4)) =
      .done (l.map (fun dp => dp.2)) ((l.map (fun dp => dp.2.length)).sum) tail := by
    rw [hbody]
    exact chunkLoop_encoded l tail hwf
  show frameCore (stripLeadingCRLF buf) = _
  rw [hstrip]
  simp [frameCore, hk, hm, hch, hcl]

/-- C2 witness: the universal part instantiated at the single-chunk
encoding of `"hello"` after a chunked-transfer header. -/
theorem c2_chunked_body_reassembly_witness :
    transport_input_frame
        ("HTTP/1.1 200 OK\r\nTransfer-Encoding: chunked\r\n\r\n5\r\nhello\r\n0\r\n\r\n".toList) =
      (.complete
        { headers := [("Transfer-Encoding".toList, "chunked".toList)],
          body := ([(['5'], "hello".toList)].map
            (fun dp : List Byte × List Byte => dp.2)).flatten,
          bodylen := ([(['5'], "hello".toList)].map
            (fun dp : List Byte × List Byte => dp.2.length)).sum } [], []) :=
  c2_chunked_body_reassembly.1
    ("HTTP/1.1 200 OK\r\nTransfer-Encoding: chunked\r\n\r\n5\r\nhello\r\n0\r\n\r\n".toList)
    43 { headers := [("Transfer-Encoding".toList, "chunked".toList)],
         bodylen := .chunked }
    [(['5'], "hello".toList)] []
    (by decide) (by decide) (by decide) (by decide) (by decide)
    (by intro dp hdp; simp at hdp; subst hdp; refine ⟨by decide, by decide, by decide, by decide, by decide⟩)

end SipeHttp

namespace SipeHttp

/-- C9 (code_bug evidence): the claim and the spec require that every
in-flight chunk-decoding failure yields `Incomplete` with the buffer
preserved, never a destructive outcome.  But the guard at line 243
computes `remainder < length + 2` in `guint` arithmetic: for the size
line `FFFFFFFE` the parsed size is 4294967294, `length + 2` wraps to 0,
the guard passes although the chunk extends ~4 GiB past the buffer, and
the code walks out of the allocation (undefined behaviour) instead of
returning with the buffer restored.  The model makes that path explicit
as the `overrun` outcome: this complete chunked header followed by the
size line `FFFFFFFE` and two stray payload bytes frames as `overrun`,
not `Incomplete`. -/
theorem c9_chunk_size_overrun :
    transport_input_frame
        ("HTTP/1.1 200 OK\r\nTransfer-Encoding: chunked\r\n\r\nFFFFFFFE\r\nxx".toList) =
      (.overrun,
       "HTTP/1.1 200 OK\r\nTransfer-Encoding: chunked\r\n\r\nFFFFFFFE\r\nxx".toList) := by
  decide

/-- Supporting fact for the C9/C4 analysis: the incomplete-chunk shape
`"5\r\nhel"` (payload plus trailing CRLF not fully present) after a
chunked header frames as `Incomplete` with the buffer preserved, as the
claim demands on non-wrapping inputs. -/
theorem chunk_payload_incomplete_preserves_buffer :
    transport_input_frame
        ("HTTP/1.1 200 OK\r\nTransfer-Encoding: chunked\r\n\r\n5\r\nhel".toList) =
      (.incomplete,
       "HTTP/1.1 200 OK\r\nTransfer-Encoding: chunked\r\n\r\n5\r\nhel".toList) := by
  decide

/-- Supporting fact for the C4 analysis: `g_ascii_strtoll` skips leading
ASCII whitespace, so a chunked body whose size line starts with a stray
CRLF still parses: `"\r\n5\r\nhello\r\n0\r\n\r\n"` after the chunked
header completes with body `"hello"` (the leading CRLF is consumed as
whitespace by the size parse). -/
theorem chunk_whitespace_size_line_completes :
    transport_input_frame
        ("HTTP/1.1 200 OK\r\nTransfer-Encoding: chunked\r\n\r\n\r\n5\r\nhello\r\n0\r\n\r\n".toList) =
      (.complete
        { headers := [("Transfer-Encoding".toList, "chunked".toList)],
          body := "hello".toList, bodylen := 5 } [], []) := by
  decide

end SipeHttp

namespace SipeHttp

lemma frameCore_fixed_incomplete (buf : List Byte) (k n : Nat) (m : SipMsg)
    (hk : findCRLF2 buf = some k)
    (hm : sipmsg_parse_header (buf.take (k + 2)) = some m)
    (hn : m.bodylen = .fixed n)
    (hlt : (buf.drop (k + 4)).length < n) :
    frameCore buf = (.incomplete, buf) := by
  have hc : ¬ n ≤ buf.length - (k + 4) := by
    simp only [List.length_drop] at hlt
    omega
  simp [frameCore, hk, hm, hn, hc]

lemma frameCore_fixed_complete (buf : List Byte) (k n : Nat) (m : SipMsg)
    (hk : findCRLF2 buf = some k)
    (hm : sipmsg_parse_header (buf.take (k + 2)) = some m)
    (hn : m.bodylen = .fixed n)
    (hge : n ≤ (buf.drop (k + 4)).length) :
    frameCore buf =
      (.complete { headers := m.headers, body := (buf.drop (k + 4)).take n,
                   bodylen := n } ((buf.drop (k + 4)).drop n),
       (buf.drop (k + 4)).drop n) := by
  have hc : n ≤ buf.length - (k + 4) := by
    simp only [List.length_drop] at hge
    omega
  have hdd : (buf.drop (k + 4)).drop n = buf.drop (k + 4 + n) := by
    rw [List.drop_drop]
  simp [frameCore, hk, hm, hn, hc, hdd]

/-- C3: for a complete header block declaring a fixed content length `n`,
fewer than `n` bytes after the `\r\n\r\n` terminator give `Incomplete`
with the buffer preserved; otherwise the framer is `Complete` with exactly
the `n` bytes after the terminator as body, the consumed length covering
header block plus body, and all trailing bytes retained; and a complete
header with no declared length or chunking is immediately `Complete` with
an empty body. -/
theorem c3_fixed_length_framing :
    (∀ (buf : List Byte) (k : Nat) (m : SipMsg) (n : Nat),
      stripLeadingCRLF buf = buf →
      findCRLF2 buf = some k →
      sipmsg_parse_header (buf.take (k + 2)) = some m →
      m.bodylen = .fixed n →
      (((buf.drop (k + 4)).length < n →
        transport_input_frame buf = (.incomplete, buf)) ∧
       (n ≤ (buf.drop (k + 4)).length →
        transport_input_frame buf =
          (.complete { headers := m.headers, body := (buf.drop (k + 4)).take n,
                       bodylen := n } ((buf.drop (k + 4)).drop n),
           (buf.drop (k + 4)).drop n)))) ∧
    (∀ (buf : List Byte) (k : Nat) (m : SipMsg),
      stripLeadingCRLF buf = buf →
      findCRLF2 buf = some k →
      sipmsg_parse_header (buf.take (k + 2)) = some m →
      findHeader m.headers ("Transfer-Encoding".toList) = none →
      findHeader m.headers ("Content-Length".toList) = none →
      transport_input_frame buf =
        (.complete { headers := m.headers, body := [], bodylen := 0 }
          (buf.drop (k + 4)), buf.drop (k + 4))) := by
  constructor
  · intro buf k m n hstrip hk hm hn
    constructor
    · intro hlt
      show frameCore (stripLeadingCRLF buf) = _
      rw [hstrip]
      exact frameCore_fixed_incomplete buf k n m hk hm hn hlt
    · intro hge
      show frameCore (stripLeadingCRLF buf) = _
      rw [hstrip]
      exact frameCore_fixed_complete buf k n m hk hm hn hge
  · intro buf k m hstrip hk hm hte hcl
    have hn : m.bodylen = .fixed 0 := by
      cases hsp : splitCRLF (buf.take (k + 2)) with
      | nil => rw [sipmsg_parse_header, hsp] at hm; exact absurd hm (by simp)
      | cons first rest =>
        rw [sipmsg_parse_header, hsp] at hm
        by_cases hpre : ['H', 'T', 'T', 'P', '/'].isPrefixOf first
        · simp only [if_pos hpre, Option.some.injEq] at hm
          subst hm
          simp at hte hcl
          simp [hte, hcl]
        · simp [hpre] at hm
    have h := frameCore_fixed_complete buf k 0 m hk hm hn (Nat.zero_le _)
    show frameCore (stripLeadingCRLF buf) = _
    rw [hstrip, h]
    simp

/-- C3 witness: `Content-Length: 3` with only two body bytes is
`Incomplete`; with three body bytes plus trailing bytes it is `Complete`
with body `"abc"` and the tail `"XYZ"` retained in the buffer. -/
theorem c3_fixed_length_framing_witness :
    transport_input_frame
        ("HTTP/1.1 200 OK\r\nContent-Length: 3\r\n\r\nabcXYZ".toList) =
      (.complete
        { headers := [("Content-Length".toList, "3".toList)],
          body := (("HTTP/1.1 200 OK\r\nContent-Length: 3\r\n\r\nabcXYZ".toList).drop
            (34 + 4)).take 3,
          bodylen := 3 }
        ((("HTTP/1.1 200 OK\r\nContent-Length: 3\r\n\r\nabcXYZ".toList).drop
            (34 + 4)).drop 3),
       (("HTTP/1.1 200 OK\r\nContent-Length: 3\r\n\r\nabcXYZ".toList).drop
            (34 + 4)).drop 3) :=
  (c3_fixed_length_framing.1
    ("HTTP/1.1 200 OK\r\nContent-Length: 3\r\n\r\nabcXYZ".toList)
    34 { headers := [("Content-Length".toList, "3".toList)],
         bodylen := .fixed 3 } 3
    (by decide) (by decide) (by decide) (by decide)).2 (by decide)

end SipeHttp

namespace SipeHttp

lemma start_timer_connections (st : HttpState) :
    (start_timer st).connections = st.connections := by
  unfold start_timer
  cases st.timeouts.head? <;> rfl

lemma reestablish_connections (st : HttpState) (k : List Byte) (now : Nat) :
    (reestablish st k now).connections =
      st.connections.map (entryUpd k (now + SIPE_HTTP_DEFAULT_TIMEOUT)) := by
  unfold reestablish
  by_cases h : st.next_timeout = 0
  · simp [h, start_timer_connections]
  · simp [h]

lemma entryUpd_host_port (k : List Byte) (d : Nat) (x : Entry) :
    (entryUpd k d x).host_port = x.host_port := by
  unfold entryUpd
  split <;> rfl

lemma map_entryUpd_keys (l : List Entry) (k : List Byte) (d : Nat) :
    (l.map (entryUpd k d)).map (fun e => e.host_port) =
      l.map (fun e => e.host_port) := by
  rw [List.map_map]
  exact List.map_congr_left (fun x _ => entryUpd_host_port k d x)

lemma lookupConn_some_mem (l : List Entry) (k : List Byte) (e : Entry)
    (h : lookupConn l k = some e) : e ∈ l ∧ e.host_port = k := by
  refine ⟨List.mem_of_find?_eq_some h, ?_⟩
  have := List.find?_some h
  simpa using this

lemma lookupConn_eq_none_iff (l : List Entry) (k : List Byte) :
    lookupConn l k = none ↔ ∀ e ∈ l, ¬ e.host_port = k := by
  simp [lookupConn, List.find?_eq_none]

lemma lookupConn_cons_pos (a : Entry) (l : List Entry) (k : List Byte)
    (ha : a.host_port = k) : lookupConn (a :: l) k = some a := by
  simp [lookupConn, List.find?_cons, ha]

lemma lookupConn_cons_neg (a : Entry) (l : List Entry) (k : List Byte)
    (ha : ¬ a.host_port = k) : lookupConn (a :: l) k = lookupConn l k := by
  simp [lookupConn, List.find?_cons, ha]

lemma lookupConn_map_upd (l : List Entry) (k : List Byte) (d : Nat) (e : Entry)
    (h : lookupConn l k = some e) :
    lookupConn (l.map (entryUpd k d)) k =
      some { e with connected := false, connection := true, timeout := d } := by
  induction l with
  | nil => simp [lookupConn] at h
  | cons a l ih =>
    by_cases ha : a.host_port = k
    · rw [lookupConn_cons_pos a l k ha] at h
      injection h with h
      subst h
      rw [List.map_cons,
        lookupConn_cons_pos _ _ k (by rw [entryUpd_host_port]; exact ha)]
      congr 1
      unfold entryUpd
      rw [if_pos ha]
    · rw [lookupConn_cons_neg a l k ha] at h
      rw [List.map_cons,
        lookupConn_cons_neg _ _ k (by rw [entryUpd_host_port]; exact ha)]
      exact ih h

lemma lookupConn_append_right (l1 l2 : List Entry) (k : List Byte)
    (h : lookupConn l1 k = none) :
    lookupConn (l1 ++ l2) k = lookupConn l2 k := by
  induction l1 with
  | nil => simp
  | cons a l ih =>
    by_cases ha : a.host_port = k
    · rw [lookupConn_cons_pos a l k ha] at h
      cases h
    · rw [lookupConn_cons_neg a l k ha] at h
      rw [List.cons_append, lookupConn_cons_neg a _ k ha]
      exact ih h

end SipeHttp

namespace SipeHttp

lemma transport_new_key (st : HttpState) (h : List Byte) (p now : Nat) :
    (sipe_http_transport_new st h p now).2 = hostPortKey h p := by
  simp only [sipe_http_transport_new]
  cases hl : lookupConn st.connections (hostPortKey h p) with
  | none => rfl
  | some e => by_cases hc : e.connection = true <;> simp [hc]

lemma transport_new_found_live (st : HttpState) (h : List Byte) (p now : Nat)
    (e : Entry) (hl : lookupConn st.connections (hostPortKey h p) = some e)
    (hc : e.connection = true) :
    sipe_http_transport_new st h p now = (st, hostPortKey h p) := by
  simp only [sipe_http_transport_new]
  rw [hl]
  simp [hc]

lemma transport_new_keys (st : HttpState) (h : List Byte) (p now : Nat) :
    (sipe_http_transport_new st h p now).1.connections.map
        (fun e => e.host_port) =
      (if lookupConn st.connections (hostPortKey h p) = none
       then st.connections.map (fun e => e.host_port) ++ [hostPortKey h p]
       else st.connections.map (fun e => e.host_port)) := by
  simp only [sipe_http_transport_new]
  cases hl : lookupConn st.connections (hostPortKey h p) with
  | none =>
    simp only [if_pos rfl]
    rw [reestablish_connections, map_entryUpd_keys]
    simp
  | some e =>
    simp only [reduceCtorEq, if_neg]
    by_cases hc : e.connection = true
    · simp [hc]
    · simp only [Bool.not_eq_true] at hc
      simp only [hc, Bool.false_eq_true, if_false]
      rw [reestablish_connections, map_entryUpd_keys]

lemma transport_new_live (st : HttpState) (h : List Byte) (p now : Nat) :
    ∃ e, lookupConn (sipe_http_transport_new st h p now).1.connections
        (hostPortKey h p) = some e ∧ e.connection = true := by
  simp only [sipe_http_transport_new]
  cases hl : lookupConn st.connections (hostPortKey h p) with
  | none =>
    refine ⟨{ host_port := hostPortKey h p, connection := true,
              connected := false,
              timeout := now + SIPE_HTTP_DEFAULT_TIMEOUT }, ?_, rfl⟩
    simp only
    rw [reestablish_connections]
    rw [List.map_append]
    rw [lookupConn_append_right]
    · simp only [List.map_cons, List.map_nil]
      rw [lookupConn_cons_pos]
      · congr 1
        unfold entryUpd
        rw [if_pos rfl]
      · rw [entryUpd_host_port]
    · rw [lookupConn_eq_none_iff] at hl ⊢
      intro x hx
      obtain ⟨y, hy, rfl⟩ := List.mem_map.mp hx
      rw [entryUpd_host_port]
      exact hl y hy
  | some e =>
    by_cases hc : e.connection = true
    · exact ⟨e, by simp [hc, hl], hc⟩
    · simp only [Bool.not_eq_true] at hc
      refine ⟨{ e with connected := false, connection := true, timeout := now + SIPE_HTTP_DEFAULT_TIMEOUT }, ?_, rfl⟩
      simp only [hc, Bool.false_eq_true, if_false]
      rw [reestablish_connections]
      exact lookupConn_map_upd st.connections (hostPortKey h p) _ e hl

lemma countP_eq_one_of_nodup_mem (l : List (List Byte)) (k : List Byte)
    (hnd : l.Nodup) (hm : k ∈ l) :
    l.countP (fun x => x = k) = 1 := by
  induction l with
  | nil => cases hm
  | cons a l ih =>
    rcases List.mem_cons.mp hm with rfl | hm'
    · rw [List.countP_cons_of_pos _ _ (by simp)]
      have hnot : k ∉ l := (List.nodup_cons.mp hnd).1
      have hz : l.countP (fun x => x = k) = 0 := by
        rw [List.countP_eq_zero]
        intro x hx
        simp only [decide_eq_true_eq]
        intro hxk
        exact hnot (hxk ▸ hx)
      rw [hz]
    · have hka : ¬ a = k := by
        intro hak
        exact (List.nodup_cons.mp hnd).1 (hak ▸ hm')
      rw [List.countP_cons_of_neg _ _ (by simpa using hka)]
      exact ih (List.nodup_cons.mp hnd).2 hm'

/-- C1: destinations differing only in ASCII host letter case normalize to
the same `host:port` key, so two successive `sipe_http_transport_new` calls
for them return the same pooled entry handle, the pool maps exactly one
entry to that destination, and from an empty pool the pool size ends at 1. -/
theorem c1_case_insensitive_pooling (h1 h2 : List Byte) (port : Nat)
    (st : HttpState) (n1 n2 : Nat)
    (hcase : lowerAscii h1 = lowerAscii h2)
    (hnd : (st.connections.map (fun e => e.host_port)).Nodup) :
    (sipe_http_transport_new st h1 port n1).2 =
      (sipe_http_transport_new (sipe_http_transport_new st h1 port n1).1
        h2 port n2).2 ∧
    ((sipe_http_transport_new (sipe_http_transport_new st h1 port n1).1
        h2 port n2).1.connections.map (fun e => e.host_port)).countP
      (fun x => x = hostPortKey h1 port) = 1 ∧
    (st.connections = [] →
      (sipe_http_transport_new (sipe_http_transport_new st h1 port n1).1
        h2 port n2).1.connections.length = 1) := by
  have hkey : hostPortKey h2 port = hostPortKey h1 port := by
    unfold hostPortKey
    rw [hcase]
  obtain ⟨e, hle, hec⟩ := transport_new_live st h1 port n1
  have hle2 : lookupConn (sipe_http_transport_new st h1 port n1).1.connections
      (hostPortKey h2 port) = some e := by
    rw [hkey]
    exact hle
  have hst2 := transport_new_found_live
    (sipe_http_transport_new st h1 port n1).1 h2 port n2 e hle2 hec
  have hkeys1 := transport_new_keys st h1 port n1
  refine ⟨?_, ?_, ?_⟩
  · rw [transport_new_key, hst2, hkey]
  · rw [hst2]
    cases hl : lookupConn st.connections (hostPortKey h1 port) with
    | none =>
      rw [hl] at hkeys1
      simp only [if_pos] at hkeys1
      rw [hkeys1, List.countP_append]
      have hzero : (st.connections.map (fun e => e.host_port)).countP
          (fun x => x = hostPortKey h1 port) = 0 := by
        rw [List.countP_eq_zero]
        intro x hx
        simp only [decide_eq_true_eq]
        obtain ⟨y, hy, rfl⟩ := List.mem_map.mp hx
        rw [lookupConn_eq_none_iff] at hl
        exact hl y hy
      rw [hzero]
      simp
    | some e' =>
      rw [hl] at hkeys1
      simp only [reduceCtorEq, if_neg] at hkeys1
      rw [hkeys1]
      obtain ⟨hmem, hk'⟩ := lookupConn_some_mem st.connections _ e' hl
      exact countP_eq_one_of_nodup_mem _ _ hnd
        (List.mem_map.mpr ⟨e', hmem, hk'⟩)
  · intro hempty
    rw [hst2]
    have hl : lookupConn st.connections (hostPortKey h1 port) = none := by
      rw [hempty]
      rfl
    rw [hl] at hkeys1
    simp only [if_pos] at hkeys1
    have hlen : ((sipe_http_transport_new st h1 port n1).1.connections.map
        (fun e => e.host_port)).length = 1 := by
      rw [hkeys1, hempty]
      rfl
    simpa using hlen

/-- C1 witness: `EXAMPLE.com:443` followed by `example.COM:443` from an
empty pool returns the same handle both times and leaves the pool size at
exactly one entry for `example.com:443`. -/
theorem c1_case_insensitive_pooling_witness :
    ((sipe_http_transport_new sipe_http_init_state ("EXAMPLE.com".toList)
        443 0).2 =
      (sipe_http_transport_new
        (sipe_http_transport_new sipe_http_init_state ("EXAMPLE.com".toList)
          443 0).1 ("example.COM".toList) 443 5).2) ∧
    ((sipe_http_transport_new
        (sipe_http_transport_new sipe_http_init_state ("EXAMPLE.com".toList)
          443 0).1 ("example.COM".toList) 443 5).1.connections.map
        (fun e => e.host_port)).countP
      (fun x => x = hostPortKey ("EXAMPLE.com".toList) 443) = 1 ∧
    (sipe_http_init_state.connections = [] →
      (sipe_http_transport_new
        (sipe_http_transport_new sipe_http_init_state ("EXAMPLE.com".toList)
          443 0).1 ("example.COM".toList) 443 5).1.connections.length = 1) :=
  c1_case_insensitive_pooling ("EXAMPLE.com".toList) ("example.COM".toList)
    443 sipe_http_init_state 0 5 (by decide) (by decide)

end SipeHttp

namespace SipeHttp

lemma timeoutLoopF_spec :
    ∀ (fuel : Nat) (st : HttpState) (victim : List Byte) (now : Nat),
      (st.timeouts.eraseP (fun x => x.1 = victim)).length < fuel →
      timeoutLoopF fuel st victim now =
        { connections :=
            ((st.timeouts.eraseP (fun x => x.1 = victim)).takeWhile
                (fun x => x.2 ≤ now)).foldl
              (fun cs x => cs.eraseP (fun e => e.host_port = x.1))
              (st.connections.eraseP (fun e => e.host_port = victim)),
          timeouts := (st.timeouts.eraseP (fun x => x.1 = victim)).dropWhile
            (fun x => x.2 ≤ now),
          next_timeout :=
            match ((st.timeouts.eraseP (fun x => x.1 = victim)).dropWhile
                (fun x => x.2 ≤ now)).head? with
            | some hd => hd.2
            | none => st.next_timeout } := by
  intro fuel
  induction fuel with
  | zero =>
    intro st victim now hf
    exact absurd hf (Nat.not_lt_zero _)
  | succ f ih =>
    intro st victim now hf
    rw [timeoutLoopF]
    cases hq1 : st.timeouts.eraseP (fun x => decide (x.1 = victim)) with
    | nil =>
      have : (transport_drop st victim).timeouts.head? = none := by
        simp [transport_drop, hq1]
      rw [this]
      simp [transport_drop, hq1]
    | cons hd t =>
      have hhd : (transport_drop st victim).timeouts.head? = some hd := by
        simp [transport_drop, hq1]
      simp only [hhd]
      by_cases hle : now < hd.2
      · rw [if_pos hle]
        have hdw : (hd :: t).dropWhile (fun x => decide (x.2 ≤ now)) =
            hd :: t := by
          rw [List.dropWhile_cons_of_neg]
          simp
          omega
        have htw : (hd :: t).takeWhile (fun x => decide (x.2 ≤ now)) = [] := by
          rw [List.takeWhile_cons_of_neg]
          simp
          omega
        simp only [transport_drop, hq1, start_timer, hdw, htw, List.head?_cons,
          List.foldl_nil]
      · rw [if_neg hle]
        have hle' : hd.2 ≤ now := by omega
        have hdw : (hd :: t).dropWhile (fun x => decide (x.2 ≤ now)) =
            t.dropWhile (fun x => decide (x.2 ≤ now)) := by
          rw [List.dropWhile_cons_of_pos]
          simp [hle']
        have htw : (hd :: t).takeWhile (fun x => decide (x.2 ≤ now)) =
            hd :: t.takeWhile (fun x => decide (x.2 ≤ now)) := by
          rw [List.takeWhile_cons_of_pos]
          simp [hle']
        have hself : (transport_drop st victim).timeouts.eraseP
            (fun x => decide (x.1 = hd.1)) = t := by
          simp only [transport_drop, hq1]
          rw [List.eraseP_cons_of_pos]
          simp
        have hfl : ((transport_drop st victim).timeouts.eraseP
            (fun x => x.1 = hd.1)).length < f := by
          rw [hself]
          have : (hd :: t).length ≤ st.timeouts.length := by
            rw [← hq1]
            exact List.length_eraseP_le _
          simp only [List.length_cons] at this
          have hlen : st.timeouts.length < f + 1 + 1 ∨ True := Or.inr trivial
          rw [hq1] at hf
          simp only [List.length_cons] at hf
          omega
        have hself2 : List.eraseP (fun x => decide (x.1 = hd.1)) (hd :: t) =
            t := by
          rw [List.eraseP_cons_of_pos]
          simp
        rw [ih (transport_drop st victim) hd.1 now hfl]
        simp only [transport_drop, hq1, hself, hself2, hdw, htw,
          List.foldl_cons]

lemma transport_timeout_spec (st : HttpState) (victim : List Byte) (now : Nat) :
    sipe_http_transport_timeout st victim now =
      { connections :=
          ((st.timeouts.eraseP (fun x => x.1 = victim)).takeWhile
              (fun x => x.2 ≤ now)).foldl
            (fun cs x => cs.eraseP (fun e => e.host_port = x.1))
            (st.connections.eraseP (fun e => e.host_port = victim)),
        timeouts := (st.timeouts.eraseP (fun x => x.1 = victim)).dropWhile
          (fun x => x.2 ≤ now),
        next_timeout :=
          match ((st.timeouts.eraseP (fun x => x.1 = victim)).dropWhile
              (fun x => x.2 ≤ now)).head? with
          | some hd => hd.2
          | none => 0 } := by
  have h : ((({ st with next_timeout := 0 } : HttpState)).timeouts.eraseP
      (fun x => x.1 = victim)).length < st.timeouts.length + 1 := by
    have hle := List.length_eraseP_le (p := fun x => decide (x.1 = victim))
      st.timeouts
    simp only
    omega
  unfold sipe_http_transport_timeout
  rw [timeoutLoopF_spec (st.timeouts.length + 1)
    { st with next_timeout := 0 } victim now h]

lemma sorted_dropWhile_gt (l : List (List Byte × Nat)) (now : Nat)
    (hs : l.Pairwise (fun a b => a.2 ≤ b.2)) :
    ∀ x ∈ l.dropWhile (fun x => x.2 ≤ now), now < x.2 := by
  induction l with
  | nil => intro x hx; cases hx
  | cons a t ih =>
    intro x hx
    by_cases ha : a.2 ≤ now
    · rw [List.dropWhile_cons_of_pos (by simpa using ha)] at hx
      exact ih (List.Pairwise.sublist (List.sublist_cons_self a t) hs) x hx
    · rw [List.dropWhile_cons_of_neg (by simpa using ha)] at hx
      rcases List.mem_cons.mp hx with rfl | hx'
      · omega
      · have := (List.pairwise_cons.mp hs).1 x hx'
        omega

lemma mem_foldl_eraseP (keys : List (List Byte × Nat)) :
    ∀ (cs : List Entry) (e : Entry), e ∈ cs →
      e.host_port ∉ keys.map (fun x => x.1) →
      e ∈ keys.foldl
        (fun cs x => cs.eraseP (fun y => y.host_port = x.1)) cs := by
  induction keys with
  | nil => intro cs e he _; exact he
  | cons a t ih =>
    intro cs e he hk
    rw [List.foldl_cons]
    have hne : ¬ e.host_port = a.1 := by
      intro hcontra
      apply hk
      rw [List.map_cons, hcontra]
      exact List.mem_cons_self _ _
    refine ih _ e ?_ ?_
    · exact (List.mem_eraseP_of_neg (by simpa using hne)).mpr he
    · intro hmem
      apply hk
      rw [List.map_cons]
      exact List.mem_cons_of_mem _ hmem

/-- C7 amended: when the eviction timer fires in the normal arming regime
— the fired victim is the queue head and its deadline has passed, which
is what `start_timer` arms for — the scheduler clears the armed state,
evicts exactly the longest queue prefix of entries whose deadline is at
or before the current time — removing each from the pool mapping and the
queue (which tears the connection down, `sipe_http_transport_free`) —
then re-arms for the new head's deadline when the queue is non-empty and
otherwise stays idle, and within that regime entries whose deadline has
not passed survive.  The original claim's unconditional survival
guarantee is false: the first eviction at line 120 does not test the
deadline, and a reuse-after-close re-establishment re-stamps the
deadline without re-arming the already-armed timer, so a fire can evict
an entry whose new deadline has not passed (see the counterexample). -/
theorem c7_timer_fire_evictions (st : HttpState) (now : Nat)
    (hd0 : List Byte × Nat) (qt : List (List Byte × Nat))
    (hsorted : st.timeouts.Pairwise (fun a b => a.2 ≤ b.2))
    (hq : st.timeouts = hd0 :: qt)
    (hdl : hd0.2 ≤ now) :
    (sipe_http_transport_timeout st hd0.1 now).timeouts =
      st.timeouts.dropWhile (fun x => x.2 ≤ now) ∧
    (sipe_http_transport_timeout st hd0.1 now).connections =
      (st.timeouts.takeWhile (fun x => x.2 ≤ now)).foldl
        (fun cs x => cs.eraseP (fun e => e.host_port = x.1))
        st.connections ∧
    (sipe_http_transport_timeout st hd0.1 now).next_timeout =
      (match (st.timeouts.dropWhile (fun x => x.2 ≤ now)).head? with
       | some x => x.2
       | none => 0) ∧
    (∀ x ∈ (sipe_http_transport_timeout st hd0.1 now).timeouts,
      now < x.2) ∧
    (∀ e ∈ st.connections,
      e.host_port ∉ (st.timeouts.takeWhile (fun x => x.2 ≤ now)).map
        (fun x => x.1) →
      e ∈ (sipe_http_transport_timeout st hd0.1 now).connections) := by
  have hspec := transport_timeout_spec st hd0.1 now
  have herase : st.timeouts.eraseP (fun x => x.1 = hd0.1) = qt := by
    rw [hq, List.eraseP_cons_of_pos]
    simp
  have htw : st.timeouts.takeWhile (fun x => x.2 ≤ now) =
      hd0 :: qt.takeWhile (fun x => x.2 ≤ now) := by
    rw [hq, List.takeWhile_cons_of_pos]
    simpa using hdl
  have hdw : st.timeouts.dropWhile (fun x => x.2 ≤ now) =
      qt.dropWhile (fun x => x.2 ≤ now) := by
    rw [hq, List.dropWhile_cons_of_pos]
    simpa using hdl
  refine ⟨?_, ?_, ?_, ?_, ?_⟩
  · rw [hspec]
    simp only [herase]
    rw [hdw]
  · rw [hspec]
    simp only [herase]
    rw [htw, List.foldl_cons]
  · rw [hspec]
    simp only [herase]
    rw [hdw]
  · intro x hx
    rw [hspec] at hx
    simp only [herase] at hx
    have hsq : qt.Pairwise (fun a b : List Byte × Nat => a.2 ≤ b.2) := by
      rw [hq] at hsorted
      exact (List.pairwise_cons.mp hsorted).2
    exact sorted_dropWhile_gt qt now hsq x hx
  · intro e he hk
    rw [hspec]
    simp only [herase]
    rw [htw, List.map_cons] at hk
    have hne : ¬ e.host_port = hd0.1 := fun hcontra =>
      hk (hcontra ▸ List.mem_cons_self _ _)
    refine mem_foldl_eraseP _ _ e ?_ ?_
    · exact (List.mem_eraseP_of_neg (by simpa using hne)).mpr he
    · intro hmem
      exact hk (List.mem_cons_of_mem _ hmem)

/-- C7 witness: three pooled connections with deadlines 10, 20 and 30; the
timer fires for the head at time 25: the first two are evicted from the
pool and queue, the third survives, and the timer re-arms for deadline 30. -/
theorem c7_timer_fire_evictions_witness :
    ((sipe_http_transport_timeout
        { connections :=
            [{ host_port := "a:1".toList, connection := true,
               connected := true, timeout := 10 },
             { host_port := "b:1".toList, connection := true,
               connected := true, timeout := 20 },
             { host_port := "c:1".toList, connection := true,
               connected := true, timeout := 30 }],
          timeouts := [("a:1".toList, 10), ("b:1".toList, 20),
                       ("c:1".toList, 30)],
          next_timeout := 10 } ("a:1".toList) 25).timeouts =
      ([("a:1".toList, 10), ("b:1".toList, 20),
        ("c:1".toList, 30)].dropWhile (fun x => x.2 ≤ 25))) ∧
    ((sipe_http_transport_timeout
        { connections :=
            [{ host_port := "a:1".toList, connection := true,
               connected := true, timeout := 10 },
             { host_port := "b:1".toList, connection := true,
               connected := true, timeout := 20 },
             { host_port := "c:1".toList, connection := true,
               connected := true, timeout := 30 }],
          timeouts := [("a:1".toList, 10), ("b:1".toList, 20),
                       ("c:1".toList, 30)],
          next_timeout := 10 } ("a:1".toList) 25).next_timeout =
      (match ([("a:1".toList, 10), ("b:1".toList, 20),
              ("c:1".toList, 30)].dropWhile (fun x => x.2 ≤ 25)).head? with
       | some x => x.2
       | none => 0)) := by
  have h := c7_timer_fire_evictions
    { connections :=
        [{ host_port := "a:1".toList, connection := true,
           connected := true, timeout := 10 },
         { host_port := "b:1".toList, connection := true,
           connected := true, timeout := 20 },
         { host_port := "c:1".toList, connection := true,
           connected := true, timeout := 30 }],
      timeouts := [("a:1".toList, 10), ("b:1".toList, 20),
                   ("c:1".toList, 30)],
      next_timeout := 10 } 25 ("a:1".toList, 10)
    [("b:1".toList, 20), ("c:1".toList, 30)]
    (by decide) (by decide) (by decide)
  exact ⟨h.1, h.2.2.1⟩

/-- C7 counterexample: the unconditional first eviction at line 120 can
evict an entry whose deadline has not passed.  Reachable trace: create
the pool entry for `a:443` at time 0 (deadline 60, timer armed, so
`next_timeout = 60`); the server sends `Connection: close` (lines
330-336: the backend socket goes away but the entry stays pooled and
queued); a new request at time 20 finds the dead entry and
re-establishes it (lines 405-430), removing and re-inserting its queue
position with deadline 80 — but because `http->timeout_timer` is still
armed (`next_timeout = 60 ≠ 0`, line 427) the timer is not re-armed for
the new deadline.  When the timer fires at time 60, line 120 drops the
victim without comparing its deadline: the entry, whose deadline 80 has
not passed, is evicted and both the pool and the queue empty out. -/
theorem c7_counterexample :
    ((sipe_http_transport_new
        (transport_server_close
          (sipe_http_transport_new sipe_http_init_state ("a".toList) 443 0).1
          (hostPortKey ("a".toList) 443))
        ("a".toList) 443 20).1.timeouts =
      [(hostPortKey ("a".toList) 443, 80)] ∧
     (sipe_http_transport_new
        (transport_server_close
          (sipe_http_transport_new sipe_http_init_state ("a".toList) 443 0).1
          (hostPortKey ("a".toList) 443))
        ("a".toList) 443 20).1.next_timeout = 60) ∧
    (sipe_http_transport_timeout
        (sipe_http_transport_new
          (transport_server_close
            (sipe_http_transport_new sipe_http_init_state ("a".toList) 443 0).1
            (hostPortKey ("a".toList) 443))
          ("a".toList) 443 20).1
        (hostPortKey ("a".toList) 443) 60).connections = [] ∧
    (sipe_http_transport_timeout
        (sipe_http_transport_new
          (transport_server_close
            (sipe_http_transport_new sipe_http_init_state ("a".toList) 443 0).1
            (hostPortKey ("a".toList) 443))
          ("a".toList) 443 20).1
        (hostPortKey ("a".toList) 443) 60).timeouts = [] := by
  decide

end SipeHttp

namespace SipeHttp

/-- Amended next-wake invariant: the timeout queue is sorted by deadline,
the timer is armed (`next_timeout ≠ 0`) whenever the queue is non-empty,
and `next_timeout` is a lower bound on every queued deadline.  (The
original claim — equality with the head's deadline, and 0 exactly on an
empty queue — fails on the error-eviction and reuse-after-close paths,
which remove or reschedule queue entries without touching the timer.) -/
def InvC8 (st : HttpState) : Prop :=
  st.timeouts.Pairwise (fun a b => a.2 ≤ b.2) ∧
  (st.timeouts ≠ [] → st.next_timeout ≠ 0) ∧
  (∀ x ∈ st.timeouts, st.next_timeout ≤ x.2)

lemma mem_insertSorted (a : List Byte × Nat) :
    ∀ (q : List (List Byte × Nat)) (x : List Byte × Nat),
      x ∈ insertSorted a q ↔ x = a ∨ x ∈ q := by
  intro q
  induction q with
  | nil => intro x; simp [insertSorted]
  | cons y t ih =>
    intro x
    unfold insertSorted
    by_cases hy : y.2 < a.2
    · rw [if_pos hy]
      simp only [List.mem_cons, ih]
      tauto
    · rw [if_neg hy]
      simp only [List.mem_cons]

lemma insertSorted_ne_nil (a : List Byte × Nat) (q : List (List Byte × Nat)) :
    insertSorted a q ≠ [] := by
  cases q with
  | nil => simp [insertSorted]
  | cons y t =>
    unfold insertSorted
    by_cases hy : y.2 < a.2
    · rw [if_pos hy]
      simp
    · rw [if_neg hy]
      simp

lemma pairwise_insertSorted (a : List Byte × Nat) :
    ∀ (q : List (List Byte × Nat)),
      q.Pairwise (fun x y => x.2 ≤ y.2) →
      (insertSorted a q).Pairwise (fun x y => x.2 ≤ y.2) := by
  intro q
  induction q with
  | nil => intro _; simp [insertSorted]
  | cons y t ih =>
    intro hp
    obtain ⟨hy_le, ht⟩ := List.pairwise_cons.mp hp
    unfold insertSorted
    by_cases hy : y.2 < a.2
    · rw [if_pos hy]
      rw [List.pairwise_cons]
      refine ⟨?_, ih ht⟩
      intro x hx
      rcases (mem_insertSorted a t x).mp hx with rfl | hx'
      · omega
      · exact hy_le x hx'
    · rw [if_neg hy]
      rw [List.pairwise_cons]
      refine ⟨?_, hp⟩
      intro x hx
      rcases List.mem_cons.mp hx with rfl | hx'
      · omega
      · have := hy_le x hx'
        omega

lemma dropWhile_head_not (p : List Byte × Nat → Bool) :
    ∀ (l : List (List Byte × Nat)) (hd : List Byte × Nat)
      (t : List (List Byte × Nat)),
      l.dropWhile p = hd :: t → p hd = false := by
  intro l
  induction l with
  | nil => intro hd t h; cases h
  | cons a l ih =>
    intro hd t h
    by_cases ha : p a = true
    · rw [List.dropWhile_cons_of_pos ha] at h
      exact ih hd t h
    · rw [List.dropWhile_cons_of_neg ha] at h
      injection h with h1 _
      subst h1
      simpa using ha

end SipeHttp

namespace SipeHttp

lemma invc8_drop (st : HttpState) (k : List Byte) (h : InvC8 st) :
    InvC8 (transport_drop st k) := by
  obtain ⟨hp, hnz, hb⟩ := h
  refine ⟨?_, ?_, ?_⟩
  · exact List.Pairwise.sublist (List.eraseP_sublist _) hp
  · intro hne
    apply hnz
    intro hnil
    apply hne
    simp only [transport_drop, hnil, List.eraseP_nil]
  · intro x hx
    exact hb x (List.mem_of_mem_eraseP hx)

lemma invc8_fire (st : HttpState) (v : List Byte) (now : Nat)
    (h : InvC8 st) : InvC8 (sipe_http_transport_timeout st v now) := by
  obtain ⟨hp, _, _⟩ := h
  rw [transport_timeout_spec]
  have hsub : ((st.timeouts.eraseP (fun x => x.1 = v)).dropWhile
      (fun x => x.2 ≤ now)).Pairwise (fun a b => a.2 ≤ b.2) :=
    List.Pairwise.sublist
      ((List.dropWhile_sublist _).trans (List.eraseP_sublist _)) hp
  refine ⟨hsub, ?_, ?_⟩
  · intro hne
    cases hq : (st.timeouts.eraseP (fun x => x.1 = v)).dropWhile
        (fun x => x.2 ≤ now) with
    | nil => exact absurd hq hne
    | cons hd t =>
      have hfalse := dropWhile_head_not _ _ hd t hq
      simp only [hq, List.head?_cons]
      simp only [decide_eq_false_iff_not, not_le] at hfalse
      omega
  · intro x hx
    cases hq : (st.timeouts.eraseP (fun x => x.1 = v)).dropWhile
        (fun x => x.2 ≤ now) with
    | nil => rw [hq] at hx; cases hx
    | cons hd t =>
      rw [hq] at hx hsub
      simp only [hq, List.head?_cons]
      rcases List.mem_cons.mp hx with rfl | hx'
      · omega
      · exact (List.pairwise_cons.mp hsub).1 x hx'

lemma invc8_reestablish (st : HttpState) (k : List Byte) (now : Nat)
    (h : InvC8 st)
    (hbound : st.next_timeout ≤ now + SIPE_HTTP_DEFAULT_TIMEOUT) :
    InvC8 (reestablish st k now) := by
  obtain ⟨hp, hnz, hb⟩ := h
  have hp' : (insertSorted (k, now + SIPE_HTTP_DEFAULT_TIMEOUT)
      st.timeouts).Pairwise (fun a b => a.2 ≤ b.2) :=
    pairwise_insertSorted _ st.timeouts hp
  unfold reestablish
  by_cases hz : st.next_timeout = 0
  · rw [if_pos hz]
    have hqnil : st.timeouts = [] := by
      by_contra hne
      exact hnz hne hz
    rw [hqnil]
    refine ⟨?_, ?_, ?_⟩
    · simp [insertSorted, start_timer]
    · intro _
      simp [insertSorted, start_timer, SIPE_HTTP_DEFAULT_TIMEOUT]
    · intro x hx
      simp only [insertSorted, start_timer, List.head?_cons,
        List.mem_singleton] at hx ⊢
      subst hx
      simp
  · rw [if_neg hz]
    refine ⟨hp', ?_, ?_⟩
    · intro _
      exact hz
    · intro x hx
      rcases (mem_insertSorted _ _ x).mp hx with rfl | hx'
      · exact hbound
      · exact hb x hx'

lemma invc8_new (st : HttpState) (h : List Byte) (p now : Nat)
    (hinv : InvC8 st)
    (hbound : st.next_timeout ≤ now + SIPE_HTTP_DEFAULT_TIMEOUT) :
    InvC8 (sipe_http_transport_new st h p now).1 := by
  simp only [sipe_http_transport_new]
  cases hl : lookupConn st.connections (hostPortKey h p) with
  | none =>
    exact invc8_reestablish _ _ now
      ⟨hinv.1, hinv.2.1, hinv.2.2⟩ hbound
  | some e =>
    by_cases hc : e.connection = true
    · simpa [hc] using hinv
    · simp only [Bool.not_eq_true] at hc
      simp only [hc, Bool.false_eq_true, if_false]
      refine invc8_reestablish _ _ now ?_ hbound
      obtain ⟨hp', hnz, hb⟩ := hinv
      refine ⟨?_, ?_, ?_⟩
      · exact List.Pairwise.sublist (List.eraseP_sublist _) hp'
      · intro hne
        apply hnz
        intro hnil
        apply hne
        simp only [hnil, List.eraseP_nil]
      · intro x hx
        exact hb x (List.mem_of_mem_eraseP hx)

end SipeHttp

namespace SipeHttp

/-- C8 counterexample: create one connection (deadline 60, timer armed)
and then deliver a transport error for it, which drops the entry
(`sipe_http_transport_error` → `sipe_http_transport_drop`).  The queue is
now empty but `next_timeout` is still 60 — contradicting the claim that
`next_timeout` is unset (0) exactly when the queue is empty. -/
theorem c8_counterexample :
    (transport_drop
        (sipe_http_transport_new sipe_http_init_state ("a".toList) 443 0).1
        (hostPortKey ("a".toList) 443)).timeouts = [] ∧
    (transport_drop
        (sipe_http_transport_new sipe_http_init_state ("a".toList) 443 0).1
        (hostPortKey ("a".toList) 443)).next_timeout = 60 ∧
    ¬ ((transport_drop
        (sipe_http_transport_new sipe_http_init_state ("a".toList) 443 0).1
        (hostPortKey ("a".toList) 443)).next_timeout = 0 ↔
       (transport_drop
        (sipe_http_transport_new sipe_http_init_state ("a".toList) 443 0).1
        (hostPortKey ("a".toList) 443)).timeouts = []) :=
  ⟨by decide, by decide, by decide⟩

/-- C8 amended: across `sipe_http_transport_new`, the drop path used by
the error callback, and a timer fire, the state preserves the invariant
that the queue stays deadline-sorted, `next_timeout` is nonzero whenever
the queue is non-empty, and `next_timeout` is a lower bound on every
queued deadline; immediately after a timer fire `next_timeout` moreover
equals the new head's deadline, or 0 when the queue emptied.  (Equality
with the head's deadline after every operation, and 0 exactly on an empty
queue, does not hold — see the counterexample.) -/
theorem c8_next_timeout_invariant :
    (∀ (st : HttpState) (h : List Byte) (p now : Nat), InvC8 st →
      st.next_timeout ≤ now + SIPE_HTTP_DEFAULT_TIMEOUT →
      InvC8 (sipe_http_transport_new st h p now).1) ∧
    (∀ (st : HttpState) (k : List Byte), InvC8 st →
      InvC8 (transport_drop st k)) ∧
    (∀ (st : HttpState) (v : List Byte) (now : Nat), InvC8 st →
      InvC8 (sipe_http_transport_timeout st v now)) ∧
    (∀ (st : HttpState) (v : List Byte) (now : Nat),
      (sipe_http_transport_timeout st v now).next_timeout =
        (match (sipe_http_transport_timeout st v now).timeouts.head? with
         | some x => x.2
         | none => 0)) := by
  refine ⟨invc8_new, invc8_drop, invc8_fire, ?_⟩
  intro st v now
  rw [transport_timeout_spec]

/-- C8 amended witness: the invariant-preservation part applied to the
first connection request on a freshly initialized transport state. -/
theorem c8_next_timeout_invariant_witness :
    InvC8 (sipe_http_transport_new sipe_http_init_state ("a".toList)
      443 0).1 :=
  c8_next_timeout_invariant.1 sipe_http_init_state ("a".toList) 443 0
    (by refine ⟨by decide, by decide, by decide⟩) (by decide)

end SipeHttp
